import Mathlib

/-!
Verification of the leaderboard/ranking engine of the Dictation Practice API
(app/services/top_performance_service.py, app/routers/rankings.py,
app/schemas/top_performance.py, app/models/top_performance.py, app/models/user.py).

Modelling conventions:
* the database table top_performance_overall is an unordered bag of rows,
  modelled as a `List TopPerformanceOverall`; SQLAlchemy `query(...).first()`
  is `List.find?`, row insertion (`db.add`) appends, bulk `delete`/`update`
  are `List.filter`/`List.map`, and an SQL `ORDER BY` is `List.mergeSort`
  with the corresponding comparator;
* the float columns `score` and `performance` are modelled as `ℚ`, the
  integer column `time` (seconds, non-negative per the schema) as `ℕ`;
* the opaque `id` column (a UUID assigned at creation and never read by any
  of the ranking operations) is omitted from the record structure;
* read operations are modelled as pure functions of the store and of the
  users table, so freedom from state mutation is structural.
-/

/-- Ranking modes, from `RankingModeEnum` in app/models/top_performance.py. -/
inductive RankingModeEnum where
  | all_time
  | last_month
  | current_month
  | last_week
  | current_week
  | by_lesson
deriving DecidableEq, Repr

/-- One row of the top_performance_overall table
(model class `TopPerformanceOverall`, app/models/top_performance.py). -/
structure TopPerformanceOverall where
  mode : RankingModeEnum
  user_id : Int
  rank : Nat
  score : ℚ
  time : Nat
  performance : ℚ
  lesson_id : Option Nat
deriving DecidableEq, Repr

/-- The top_performance_overall table, as an unordered bag of rows. -/
abbrev Store := List TopPerformanceOverall

/-- One row of the users table, restricted to the columns the ranking engine
reads (app/models/user.py). -/
structure User where
  id : Int
  full_name : Option String
  email : String
  score : ℚ
  time : Nat
  is_active : Bool
deriving DecidableEq, Repr

/-- Response schema `LeaderboardEntry` (app/schemas/top_performance.py). -/
structure LeaderboardEntry where
  rank : Nat
  user_id : Int
  full_name : Option String
  email : String
  score : ℚ
  time : Nat
  performance : ℚ
  lesson_id : Option Nat
deriving DecidableEq, Repr

/-- Result shape of `get_user_rank`: the attributes shared by the ad hoc
`UserRankResult` object built in the all_time branch (lines 614-626) and by a
`TopPerformanceOverall` row returned by the other branch (both are serialized
through these attributes; the object's `id` is again omitted). -/
structure UserRankResult where
  mode : RankingModeEnum
  user_id : Int
  rank : Nat
  score : ℚ
  time : Nat
  performance : ℚ
  lesson_id : Option Nat
deriving DecidableEq, Repr

/-- Request schema `TopPerformanceUpdate` (app/schemas/top_performance.py,
lines 50-54): all four fields optional, `exclude_unset` fields are absent. -/
structure TopPerformanceUpdate where
  rank : Option Nat
  score : Option ℚ
  time : Option Nat
  performance : Option ℚ
deriving DecidableEq, Repr

/-- A completion event as consumed by `update_current_rankings`
(user_id is fixed separately; see lines 212-234). -/
structure CompletionEvent where
  score_delta : ℚ
  time_delta : Nat
  lesson_id : Option Nat
deriving DecidableEq, Repr

/-- Mutate the first row matching `p` with `f`: models fetching a row with
`query(...).first()` and assigning to its attributes in place. -/
def updateFirst (p : TopPerformanceOverall → Bool)
    (f : TopPerformanceOverall → TopPerformanceOverall) : Store → Store
  | [] => []
  | r :: rs => if p r then f r :: rs else r :: updateFirst p f rs

/-- The filter `user_id == u AND mode == m` used by the CURRENT_MONTH and
CURRENT_WEEK lookups (lines 236-241 and 265-270). -/
def modeUserKey (u : Int) (m : RankingModeEnum) (r : TopPerformanceOverall) : Bool :=
  r.user_id == u && r.mode == m

/-- The filter `user_id == u AND mode == BY_LESSON AND lesson_id == L`
used by the BY_LESSON lookup (lines 295-301). -/
def lessonKey (u : Int) (L : Nat) (r : TopPerformanceOverall) : Bool :=
  r.user_id == u && r.mode == .by_lesson && r.lesson_id == some L

/-- Accumulate a completion event onto an existing period record and recompute
performance (lines 243-250 and 272-279). -/
def bumpRecord (s : ℚ) (t : Nat) (r : TopPerformanceOverall) : TopPerformanceOverall :=
  let score := r.score + s
  let time := r.time + t
  { r with score := score, time := time,
           performance := if 0 < time then score / time else 0 }

/-- Fresh CURRENT_MONTH / CURRENT_WEEK record with the provisional rank 999999
(lines 252-262 and 281-291). -/
def newPeriodRecord (m : RankingModeEnum) (u : Int) (s : ℚ) (t : Nat) :
    TopPerformanceOverall :=
  { mode := m, user_id := u, rank := 999999, score := s, time := t,
    performance := if 0 < t then s / t else 0, lesson_id := none }

/-- Fresh BY_LESSON record with the provisional rank 999999 (lines 315-325). -/
def newLessonRecord (u : Int) (s : ℚ) (t : Nat) (L : Nat) : TopPerformanceOverall :=
  { mode := .by_lesson, user_id := u, rank := 999999, score := s, time := t,
    performance := if 0 < t then s / t else 0, lesson_id := some L }

/-- The `should_update` test of the BY_LESSON branch (lines 305-308), on
(score, time) pairs: the new attempt `n` strictly beats the stored one `o`. -/
def betterB (n o : ℚ × Nat) : Bool :=
  decide (o.1 < n.1) || (decide (n.1 = o.1) && decide (n.2 < o.2))

/-- The CURRENT_MONTH / CURRENT_WEEK block of `update_current_rankings`
(lines 235-291): accumulate onto the existing record, or create one. -/
def applyPeriodUpdate (m : RankingModeEnum) (u : Int) (s : ℚ) (t : Nat)
    (st : Store) : Store :=
  match st.find? (modeUserKey u m) with
  | some _ => updateFirst (modeUserKey u m) (bumpRecord s t) st
  | none => st ++ [newPeriodRecord m u s t]

/-- The BY_LESSON block of `update_current_rankings` (lines 294-325): keep
only the best attempt, replacing the stored one when strictly better. -/
def applyLessonUpdate (u : Int) (s : ℚ) (t : Nat) (L : Nat) (st : Store) : Store :=
  match st.find? (lessonKey u L) with
  | some record =>
      if betterB (s, t) (record.score, record.time) then
        updateFirst (lessonKey u L)
          (fun r =>
            { r with score := s, time := t,
                     performance := if 0 < t then s / t else 0 }) st
      else st
  | none => st ++ [newLessonRecord u s t L]

/-- The partition filter of `_rerank_mode` (lines 346-351): all records of the
mode, further restricted to a lesson when a lesson_id is passed. -/
def partitionPred (m : RankingModeEnum) (lesson_id : Option Nat)
    (r : TopPerformanceOverall) : Bool :=
  r.mode == m &&
    (match lesson_id with
     | none => true
     | some L => r.lesson_id == some L)

/-- Comparator of `_rerank_mode` (lines 353-364) on (score, time) pairs, as a
sort order: score descending, tie-break time ascending for BY_LESSON and
time descending for the period modes. -/
def rankingPairLE (m : RankingModeEnum) (a b : ℚ × Nat) : Bool :=
  if m = .by_lesson then
    decide (b.1 < a.1) || (decide (a.1 = b.1) && decide (a.2 ≤ b.2))
  else
    decide (b.1 < a.1) || (decide (a.1 = b.1) && decide (b.2 ≤ a.2))

/-- The comparator of `_rerank_mode` lifted to rows (it reads only the
score and time columns). -/
def rankingLE (m : RankingModeEnum) (a b : TopPerformanceOverall) : Bool :=
  rankingPairLE m (a.score, a.time) (b.score, b.time)

/-- Assign ranks n, n+1, ... along a list: the
`for new_rank, record in enumerate(records, start=1)` loop of lines 366-367. -/
def assignRanksFrom (n : Nat) : List TopPerformanceOverall → List TopPerformanceOverall
  | [] => []
  | r :: rs => { r with rank := n } :: assignRanksFrom (n + 1) rs

/-- Method `_rerank_mode` (lines 335-369): fetch the partition sorted by the
mode's comparator and assign ranks 1..N in sorted order.  As the store is an
unordered bag, the rewritten partition rows are listed after the untouched
rest of the store. -/
def rerank_mode (st : Store) (m : RankingModeEnum) (lesson_id : Option Nat) : Store :=
  st.filter (fun r => !partitionPred m lesson_id r) ++
    assignRanksFrom 1 ((st.filter (partitionPred m lesson_id)).mergeSort (rankingLE m))

/-- Method `update_current_rankings` (lines 212-333), the ApplyCompletion
operation: incrementally update CURRENT_MONTH, CURRENT_WEEK and (when a
lesson_id is present) BY_LESSON, then re-rank each touched partition. -/
def update_current_rankings (st : Store) (user_id : Int) (score_to_add : ℚ)
    (time_to_add : Nat) (lesson_id : Option Nat) : Store :=
  let st1 := applyPeriodUpdate .current_month user_id score_to_add time_to_add st
  let st2 := applyPeriodUpdate .current_week user_id score_to_add time_to_add st1
  let st3 := match lesson_id with
    | none => st2
    | some L => applyLessonUpdate user_id score_to_add time_to_add L st2
  let st4 := rerank_mode st3 .current_month none
  let st5 := rerank_mode st4 .current_week none
  match lesson_id with
  | none => st5
  | some L => rerank_mode st5 .by_lesson (some L)

/-- Result of a week flip: the counts reported by `flip_week_rankings`
(the timestamp and message strings of the returned dict are omitted) together
with the store it leaves behind. -/
structure FlipResult where
  deleted : Nat
  flipped : Nat
  store : Store
deriving DecidableEq, Repr

/-- Method `flip_week_rankings` (lines 373-409): delete every LAST_WEEK row,
then relabel every CURRENT_WEEK row to LAST_WEEK, reporting both counts. -/
def flip_week_rankings (st : Store) : FlipResult :=
  let deleted := (st.filter (fun r => r.mode == .last_week)).length
  let st1 := st.filter (fun r => !(r.mode == .last_week))
  let flipped := (st1.filter (fun r => r.mode == .current_week)).length
  let st2 := st1.map (fun r =>
    if r.mode == .current_week then { r with mode := .last_week } else r)
  { deleted := deleted, flipped := flipped, store := st2 }

/-- The user ordering of the all_time leaderboard (lines 161-164):
`ORDER BY score DESC, time DESC`. -/
def allTimeUserLE (a b : User) : Bool :=
  decide (b.score < a.score) || (decide (a.score = b.score) && decide (b.time ≤ a.time))

/-- The `for rank, user in enumerate(users, start=1)` loop of the all_time
leaderboard (lines 166-177): positional display ranks over user rows. -/
def userLeaderboardEntries (n : Nat) : List User → List LeaderboardEntry
  | [] => []
  | u :: us =>
      { rank := n, user_id := u.id, full_name := u.full_name, email := u.email,
        score := u.score, time := u.time,
        performance := if 0 < u.time then u.score / u.time else 0,
        lesson_id := none } :: userLeaderboardEntries (n + 1) us

/-- Method `get_leaderboard` (lines 137-208).  For ALL_TIME it queries the
users table directly (active users with positive score, score DESC then time
DESC, top `limit`, positional ranks); for every other mode it reads the
mode's partition joined with the users table, ordered by stored rank. -/
def get_leaderboard (users : List User) (st : Store) (mode : RankingModeEnum)
    (lesson_id : Option Nat) (limit : Nat) : List LeaderboardEntry :=
  if mode = .all_time then
    userLeaderboardEntries 1
      (((users.filter (fun u => u.is_active && decide (0 < u.score))).mergeSort
          allTimeUserLE).take limit)
  else
    let base := st.filter (fun r => r.mode == mode)
    let base := if mode = .by_lesson && lesson_id.isSome then
        base.filter (fun r => r.lesson_id == lesson_id)
      else base
    let joined := base.filterMap (fun r =>
      (users.find? (fun u => u.id == r.user_id)).map (fun u => (r, u.full_name, u.email)))
    let sorted := (joined.mergeSort (fun a b => decide (a.1.rank ≤ b.1.rank))).take limit
    sorted.map (fun x =>
      { rank := x.1.rank, user_id := x.1.user_id, full_name := x.2.1, email := x.2.2,
        score := x.1.score, time := x.1.time, performance := x.1.performance,
        lesson_id := x.1.lesson_id })

/-- View a stored row through the attributes serialized by the my-rank
endpoint (the row's opaque id is dropped). -/
def recToRankResult (r : TopPerformanceOverall) : UserRankResult :=
  { mode := r.mode, user_id := r.user_id, rank := r.rank, score := r.score,
    time := r.time, performance := r.performance, lesson_id := r.lesson_id }

/-- Method `get_user_rank` (lines 578-639).  For ALL_TIME: look the user up,
answer none when absent or with score exactly 0, else count the active
positive-score users strictly ahead of them (score above, or equal score and
time above) and return 1 + that count, with the user's own totals.  For every
other mode: point-lookup of the user's row in the partition. -/
def get_user_rank (users : List User) (st : Store) (user_id : Int)
    (mode : RankingModeEnum) (lesson_id : Option Nat) : Option UserRankResult :=
  if mode = .all_time then
    match users.find? (fun v => v.id == user_id) with
    | none => none
    | some u =>
        if u.score = 0 then none
        else
          some { mode := .all_time, user_id := user_id,
                 rank := (users.filter (fun v =>
                     v.is_active && decide (0 < v.score) &&
                       (decide (u.score < v.score) ||
                        (decide (v.score = u.score) && decide (u.time < v.time))))).length + 1,
                 score := u.score, time := u.time,
                 performance := if 0 < u.time then u.score / u.time else 0,
                 lesson_id := none }
  else
    (match lesson_id with
     | none => st.find? (fun r : TopPerformanceOverall =>
         r.user_id == user_id && r.mode == mode)
     | some L => st.find? (fun r : TopPerformanceOverall =>
         r.user_id == user_id && r.mode == mode && r.lesson_id == some L)).map
      recToRankResult

/-- Endpoint `GET /rankings/leaderboard` (app/routers/rankings.py, lines
29-81): reject BY_LESSON requests without a lesson_id with a 400 validation
error before calling the service, else delegate to `get_leaderboard`. -/
def get_leaderboard_route (users : List User) (st : Store) (mode : RankingModeEnum)
    (lesson_id : Option Nat) (limit : Nat) : Except String (List LeaderboardEntry) :=
  if mode = .by_lesson && lesson_id.isNone then
    Except.error ("lesson_id is required when mode is by_lesson")
  else
    Except.ok (get_leaderboard users st mode lesson_id limit)

/-- The `setattr` loop of method `update_ranking` (lines 112-114) applied to
the row fetched by id: each field present in the TopPerformanceUpdate payload
is written verbatim, absent fields are left alone. -/
def applyRankingUpdate (upd : TopPerformanceUpdate) (r : TopPerformanceOverall) :
    TopPerformanceOverall :=
  let r1 := match upd.rank with
    | some v => { r with rank := v }
    | none => r
  let r2 := match upd.score with
    | some v => { r1 with score := v }
    | none => r1
  let r3 := match upd.time with
    | some v => { r2 with time := v }
    | none => r2
  match upd.performance with
  | some v => { r3 with performance := v }
  | none => r3

/-- The specified derivation of the performance column: `score / time` when
`time > 0`, else 0 (spec section 3; recomputed at lines 247-250, 259, 276-279,
288, 313, 322 of the service). -/
def perfConsistent (r : TopPerformanceOverall) : Prop :=
  r.performance = if 0 < r.time then r.score / r.time else 0

instance (r : TopPerformanceOverall) : Decidable (perfConsistent r) := by
  unfold perfConsistent
  infer_instance

/-- Every row of a store carries a performance value derived from its own
score and time columns. -/
def storeConsistent (st : Store) : Prop :=
  ∀ r ∈ st, perfConsistent r

instance (st : Store) : Decidable (storeConsistent st) := by
  unfold storeConsistent
  infer_instance

/-- The materialization loop of the ALL_TIME branch of
`calculate_and_update_rankings` (lines 488-498): one row per user, ranked
positionally from 1. -/
def allTimeRecords (n : Nat) : List User → Store
  | [] => []
  | u :: us =>
      { mode := .all_time, user_id := u.id, rank := n, score := u.score,
        time := u.time, performance := if 0 < u.time then u.score / u.time else 0,
        lesson_id := none } :: allTimeRecords (n + 1) us

/-- Method `calculate_and_update_rankings` called with mode ALL_TIME and no
lesson_id (lines 451-498): delete the mode's old rows, then materialize one
ALL_TIME row per active user with positive score, ordered by score DESC then
time DESC.  The BY_LESSON and CURRENT_* branches of the method aggregate the
progress table and are not needed by any claim. -/
def calculate_all_time_rankings (users : List User) (st : Store) : Store :=
  st.filter (fun r => !(r.mode == .all_time)) ++
    allTimeRecords 1
      ((users.filter (fun u => u.is_active && decide (0 < u.score))).mergeSort
        allTimeUserLE)

/-- The (score, time) columns of the rows matching a key predicate: the
observation through which accumulation and best-attempt behaviour is tracked. -/
def keyView (p : TopPerformanceOverall → Bool) (st : Store) : List (ℚ × Nat) :=
  (st.filter p).map (fun r => (r.score, r.time))

/-- Keep-the-better-attempt reduction on (score, time) pairs: the accumulator
form of the BY_LESSON update rule. -/
def bestPair (o n : ℚ × Nat) : ℚ × Nat := if betterB n o then n else o

/-- The (score, time) columns of the row produced by a point lookup. -/
def storedScoreTime (p : TopPerformanceOverall → Bool) (st : Store) : Option (ℚ × Nat) :=
  (st.find? p).map (fun r => (r.score, r.time))

/-- A row with its rank column cleared: rows equal up to re-ranking. -/
def stripRank (r : TopPerformanceOverall) : TopPerformanceOverall :=
  { r with rank := 0 }

/-- Concrete active user with positive score for the C3 counterexample. -/
def c3user : User :=
  { id := 1, full_name := none, email := "e", score := 5, time := 10,
    is_active := true }

/-- Users table for the C8 witness: user 1 (the queried user, score 5,
time 10), one active user strictly ahead on score, one active user tied on
score and ahead on time, and one inactive user who must not be counted. -/
def c8users : List User :=
  [{ id := 1, full_name := none, email := "a", score := 5, time := 10, is_active := true },
   { id := 2, full_name := none, email := "b", score := 7, time := 1, is_active := true },
   { id := 3, full_name := none, email := "c", score := 5, time := 20, is_active := true },
   { id := 4, full_name := none, email := "d", score := 9, time := 30, is_active := false }]

/-- Users table for the C10 witness: user 2 is inactive with positive score,
user 1 is active. -/
def c10users : List User :=
  [{ id := 2, full_name := none, email := "x", score := 5, time := 10, is_active := false },
   { id := 1, full_name := none, email := "y", score := 3, time := 4, is_active := true }]

/-- Entries of a leaderboard never owned by the given user id. -/
def leaderboardExcludes (user_id : Int) (l : List LeaderboardEntry) : Bool :=
  l.all (fun e => e.user_id != user_id)

theorem keyView_append (p : TopPerformanceOverall → Bool) (l₁ l₂ : Store) :
    keyView p (l₁ ++ l₂) = keyView p l₁ ++ keyView p l₂ := by
  simp [keyView]

theorem keyView_perm_of_perm (p : TopPerformanceOverall → Bool) {l₁ l₂ : Store}
    (h : List.Perm l₁ l₂) : List.Perm (keyView p l₁) (keyView p l₂) :=
  (h.filter p).map _

theorem keyView_eq_singleton_iff {p : TopPerformanceOverall → Bool} {st : Store}
    {x : ℚ × Nat} :
    keyView p st = [x] ↔ ∃ r, st.filter p = [r] ∧ r.score = x.1 ∧ r.time = x.2 := by
  unfold keyView
  constructor
  · intro h
    match hf : st.filter p with
    | [] => rw [hf] at h; simp at h
    | [r] =>
        rw [hf] at h
        simp only [List.map_cons, List.map_nil, List.cons.injEq, and_true] at h
        exact ⟨r, rfl, by rw [← h], by rw [← h]⟩
    | r :: r' :: tl => rw [hf] at h; simp at h
  · rintro ⟨r, hf, hs, ht⟩
    rw [hf]
    simp [hs, ht]

theorem keyView_eq_nil_iff {p : TopPerformanceOverall → Bool} {st : Store} :
    keyView p st = [] ↔ st.filter p = [] := by
  unfold keyView
  simp

theorem find?_eq_head?_filter (p : TopPerformanceOverall → Bool) (st : Store) :
    st.find? p = (st.filter p).head? :=
  Eq.symm (List.filter_head? p st)

theorem filter_updateFirst_self {p : TopPerformanceOverall → Bool}
    {f : TopPerformanceOverall → TopPerformanceOverall}
    (hpf : ∀ r, p (f r) = p r) :
    ∀ {l : Store} {r}, l.filter p = [r] → (updateFirst p f l).filter p = [f r] := by
  intro l
  induction l with
  | nil => intro r h; simp at h
  | cons hd tl ih =>
      intro r h
      by_cases hp : p hd
      · rw [List.filter_cons_of_pos hp] at h
        injection h with h1 h2
        subst h1
        simp only [updateFirst, if_pos hp]
        rw [List.filter_cons_of_pos (by rw [hpf]; exact hp), h2]
      · rw [List.filter_cons_of_neg hp] at h
        simp only [updateFirst, if_neg hp]
        rw [List.filter_cons_of_neg hp]
        exact ih h

theorem filter_updateFirst_disjoint {p q : TopPerformanceOverall → Bool}
    {f : TopPerformanceOverall → TopPerformanceOverall}
    (hq : ∀ r, q r = true → p r = false ∧ p (f r) = false) :
    ∀ l : Store, (updateFirst q f l).filter p = l.filter p := by
  intro l
  induction l with
  | nil => rfl
  | cons hd tl ih =>
      by_cases hqh : q hd
      · simp only [updateFirst, if_pos hqh]
        rw [List.filter_cons_of_neg (by simp [(hq hd hqh).2]),
            List.filter_cons_of_neg (by simp [(hq hd hqh).1])]
      · simp only [updateFirst, if_neg hqh]
        by_cases hp : p hd
        · rw [List.filter_cons_of_pos hp, List.filter_cons_of_pos hp, ih]
        · rw [List.filter_cons_of_neg hp, List.filter_cons_of_neg hp, ih]

theorem keyView_assignRanksFrom {p : TopPerformanceOverall → Bool}
    (hp : ∀ (r : TopPerformanceOverall) n, p { r with rank := n } = p r) :
    ∀ (n : Nat) (l : List TopPerformanceOverall),
      keyView p (assignRanksFrom n l) = keyView p l := by
  intro n l
  induction l generalizing n with
  | nil => rfl
  | cons hd tl ih =>
      simp only [assignRanksFrom]
      unfold keyView
      by_cases hph : p hd
      · rw [List.filter_cons_of_pos (by rw [hp]; exact hph),
            List.filter_cons_of_pos hph]
        simp only [List.map_cons]
        have := ih (n + 1)
        unfold keyView at this
        rw [this]
      · rw [List.filter_cons_of_neg (by rw [hp]; exact hph),
            List.filter_cons_of_neg hph]
        exact ih (n + 1)

theorem keyView_rerank_perm {p : TopPerformanceOverall → Bool}
    (hp : ∀ (r : TopPerformanceOverall) n, p { r with rank := n } = p r)
    (st : Store) (m : RankingModeEnum) (lesson_id : Option Nat) :
    List.Perm (keyView p (rerank_mode st m lesson_id)) (keyView p st) := by
  unfold rerank_mode
  rw [keyView_append, keyView_assignRanksFrom hp]
  have hsort : List.Perm
      ((st.filter (partitionPred m lesson_id)).mergeSort (rankingLE m))
      (st.filter (partitionPred m lesson_id)) :=
    List.mergeSort_perm _ _
  have h1 : List.Perm
      (keyView p (st.filter (fun r => !partitionPred m lesson_id r)) ++
        keyView p ((st.filter (partitionPred m lesson_id)).mergeSort (rankingLE m)))
      (keyView p (st.filter (fun r => !partitionPred m lesson_id r)) ++
        keyView p (st.filter (partitionPred m lesson_id))) :=
    (keyView_perm_of_perm p hsort).append_left _
  refine h1.trans ?_
  rw [← keyView_append]
  refine keyView_perm_of_perm p ?_
  exact ((List.filter_append_perm (partitionPred m lesson_id) st).symm.trans
    (List.perm_append_comm)).symm

theorem keyView_rerank_of_singleton {p : TopPerformanceOverall → Bool}
    (hp : ∀ (r : TopPerformanceOverall) n, p { r with rank := n } = p r)
    {st : Store} {m : RankingModeEnum} {lesson_id : Option Nat} {x : ℚ × Nat}
    (h : keyView p st = [x]) :
    keyView p (rerank_mode st m lesson_id) = [x] :=
  List.perm_singleton.mp (by rw [← h]; exact keyView_rerank_perm hp st m lesson_id)

theorem keyView_rerank_of_nil {p : TopPerformanceOverall → Bool}
    (hp : ∀ (r : TopPerformanceOverall) n, p { r with rank := n } = p r)
    {st : Store} {m : RankingModeEnum} {lesson_id : Option Nat}
    (h : keyView p st = []) :
    keyView p (rerank_mode st m lesson_id) = [] :=
  List.Perm.eq_nil (by rw [← h]; exact keyView_rerank_perm hp st m lesson_id)

theorem modeUserKey_rank_blind (u : Int) (m : RankingModeEnum)
    (r : TopPerformanceOverall) (n : Nat) :
    modeUserKey u m { r with rank := n } = modeUserKey u m r := rfl

theorem lessonKey_rank_blind (u : Int) (L : Nat)
    (r : TopPerformanceOverall) (n : Nat) :
    lessonKey u L { r with rank := n } = lessonKey u L r := rfl

theorem modeUserKey_bump (u : Int) (m : RankingModeEnum) (s : ℚ) (t : Nat)
    (r : TopPerformanceOverall) :
    modeUserKey u m (bumpRecord s t r) = modeUserKey u m r := rfl

theorem lessonKey_bump (u : Int) (L : Nat) (s : ℚ) (t : Nat)
    (r : TopPerformanceOverall) :
    lessonKey u L (bumpRecord s t r) = lessonKey u L r := rfl

theorem modeUserKey_newPeriodRecord (u : Int) (m : RankingModeEnum) (s : ℚ) (t : Nat) :
    modeUserKey u m (newPeriodRecord m u s t) = true := by
  simp [modeUserKey, newPeriodRecord]

theorem modeUserKey_of_mode_ne {u u' : Int} {m m' : RankingModeEnum}
    (h : m' ≠ m) (r : TopPerformanceOverall)
    (hr : modeUserKey u' m' r = true) : modeUserKey u m r = false := by
  simp only [modeUserKey, Bool.and_eq_true, beq_iff_eq] at hr
  simp [modeUserKey, hr.2, h]

theorem lessonKey_of_modeUserKey {u u' : Int} {m : RankingModeEnum} {L : Nat}
    (h : m ≠ .by_lesson) (r : TopPerformanceOverall)
    (hr : modeUserKey u' m r = true) : lessonKey u L r = false := by
  simp only [modeUserKey, Bool.and_eq_true, beq_iff_eq] at hr
  simp [lessonKey, hr.2, h]

theorem modeUserKey_of_lessonKey {u u' : Int} {m : RankingModeEnum} {L : Nat}
    (h : m ≠ .by_lesson) (r : TopPerformanceOverall)
    (hr : lessonKey u' L r = true) : modeUserKey u m r = false := by
  simp only [lessonKey, Bool.and_eq_true, beq_iff_eq] at hr
  simp [modeUserKey, hr.1.2]
  intro
  exact fun hm => h (by rw [hm])

theorem lessonKey_newLessonRecord (u : Int) (s : ℚ) (t : Nat) (L : Nat) :
    lessonKey u L (newLessonRecord u s t L) = true := by
  simp [lessonKey, newLessonRecord]

theorem keyView_applyPeriodUpdate_nil {m : RankingModeEnum} {u : Int}
    (s : ℚ) (t : Nat) {st : Store}
    (h : keyView (modeUserKey u m) st = []) :
    keyView (modeUserKey u m) (applyPeriodUpdate m u s t st) = [(s, t)] := by
  have hf : st.filter (modeUserKey u m) = [] := keyView_eq_nil_iff.mp h
  unfold applyPeriodUpdate
  rw [find?_eq_head?_filter, hf]
  simp only [List.head?_nil]
  rw [keyView_append, h]
  unfold keyView
  rw [List.filter_cons_of_pos (modeUserKey_newPeriodRecord u m s t)]
  simp [newPeriodRecord]

theorem keyView_applyPeriodUpdate_acc {m : RankingModeEnum} {u : Int}
    (s : ℚ) (t : Nat) {st : Store} {x : ℚ × Nat}
    (h : keyView (modeUserKey u m) st = [x]) :
    keyView (modeUserKey u m) (applyPeriodUpdate m u s t st) = [(x.1 + s, x.2 + t)] := by
  obtain ⟨r, hf, hs, ht⟩ := keyView_eq_singleton_iff.mp h
  unfold applyPeriodUpdate
  rw [find?_eq_head?_filter, hf]
  simp only [List.head?_cons]
  have := filter_updateFirst_self (f := bumpRecord s t)
    (modeUserKey_bump u m s t) hf
  unfold keyView
  rw [this]
  simp [bumpRecord, hs, ht]

theorem keyView_applyPeriodUpdate_other {p : TopPerformanceOverall → Bool}
    {m : RankingModeEnum} {u : Int} (s : ℚ) (t : Nat) (st : Store)
    (hd : ∀ r, modeUserKey u m r = true → p r = false)
    (hpb : ∀ r, p (bumpRecord s t r) = p r) :
    keyView p (applyPeriodUpdate m u s t st) = keyView p st := by
  unfold applyPeriodUpdate
  cases hfind : st.find? (modeUserKey u m) with
  | some r =>
      unfold keyView
      rw [filter_updateFirst_disjoint
        (fun r hr => ⟨hd r hr, by rw [hpb]; exact hd r hr⟩)]
  | none =>
      rw [keyView_append]
      have hnew : p (newPeriodRecord m u s t) = false :=
        hd _ (modeUserKey_newPeriodRecord u m s t)
      unfold keyView
      rw [List.filter_cons_of_neg (by simp [hnew])]
      simp

theorem keyView_applyLessonUpdate_nil {u : Int} {L : Nat} (s : ℚ) (t : Nat)
    {st : Store} (h : keyView (lessonKey u L) st = []) :
    keyView (lessonKey u L) (applyLessonUpdate u s t L st) = [(s, t)] := by
  have hf : st.filter (lessonKey u L) = [] := keyView_eq_nil_iff.mp h
  unfold applyLessonUpdate
  rw [find?_eq_head?_filter, hf]
  simp only [List.head?_nil]
  rw [keyView_append, h]
  unfold keyView
  rw [List.filter_cons_of_pos (lessonKey_newLessonRecord u s t L)]
  simp [newLessonRecord]

theorem keyView_applyLessonUpdate_best {u : Int} {L : Nat} (s : ℚ) (t : Nat)
    {st : Store} {x : ℚ × Nat} (h : keyView (lessonKey u L) st = [x]) :
    keyView (lessonKey u L) (applyLessonUpdate u s t L st) =
      [if betterB (s, t) x then (s, t) else x] := by
  obtain ⟨r, hf, hs, ht⟩ := keyView_eq_singleton_iff.mp h
  unfold applyLessonUpdate
  rw [find?_eq_head?_filter, hf]
  simp only [List.head?_cons]
  have hrx : (r.score, r.time) = x := by rw [hs, ht]
  rw [hrx]
  by_cases hb : betterB (s, t) x
  · rw [if_pos hb, if_pos hb]
    have := filter_updateFirst_self
      (f := fun r => { r with score := s, time := t, performance := if 0 < t then s / t else 0 })
      (p := lessonKey u L) (fun r => rfl) hf
    unfold keyView
    rw [this]
    simp
  · rw [if_neg hb, if_neg hb, h]

theorem keyView_applyLessonUpdate_other {p : TopPerformanceOverall → Bool}
    {u : Int} {L : Nat} (s : ℚ) (t : Nat) (st : Store)
    (hd : ∀ r, lessonKey u L r = true → p r = false)
    (hfp : ∀ r, p { r with score := s, time := t, performance := if 0 < t then s / t else 0 } = p r) :
    keyView p (applyLessonUpdate u s t L st) = keyView p st := by
  unfold applyLessonUpdate
  cases hfind : st.find? (lessonKey u L) with
  | some r =>
      dsimp only
      by_cases hb : betterB (s, t) (r.score, r.time)
      · rw [if_pos hb]
        unfold keyView
        rw [filter_updateFirst_disjoint
          (fun r hr => ⟨hd r hr, by rw [hfp]; exact hd r hr⟩)]
      · rw [if_neg hb]
  | none =>
      dsimp only
      rw [keyView_append]
      have hnew : p (newLessonRecord u s t L) = false :=
        hd _ (lessonKey_newLessonRecord u s t L)
      unfold keyView
      rw [List.filter_cons_of_neg (by simp [hnew])]
      simp

theorem keyView_update_month (st : Store) (u : Int) (s : ℚ) (t : Nat)
    (lesson_id : Option Nat) :
    (keyView (modeUserKey u .current_month) st = [] →
      keyView (modeUserKey u .current_month)
        (update_current_rankings st u s t lesson_id) = [(s, t)]) ∧
    ∀ x, keyView (modeUserKey u .current_month) st = [x] →
      keyView (modeUserKey u .current_month)
        (update_current_rankings st u s t lesson_id) = [(x.1 + s, x.2 + t)] := by
  have hblind := modeUserKey_rank_blind u .current_month
  have hweek : keyView (modeUserKey u .current_month)
      (applyPeriodUpdate .current_week u s t
        (applyPeriodUpdate .current_month u s t st)) =
      keyView (modeUserKey u .current_month)
        (applyPeriodUpdate .current_month u s t st) :=
    keyView_applyPeriodUpdate_other s t _
      (fun r hr => modeUserKey_of_mode_ne (by decide) r hr) (fun r => rfl)
  simp only [update_current_rankings]
  cases lesson_id with
  | none =>
      refine ⟨fun h => ?_, fun x h => ?_⟩
      · exact keyView_rerank_of_singleton hblind (keyView_rerank_of_singleton hblind
          (hweek.trans (keyView_applyPeriodUpdate_nil s t h)))
      · exact keyView_rerank_of_singleton hblind (keyView_rerank_of_singleton hblind
          (hweek.trans (keyView_applyPeriodUpdate_acc s t h)))
  | some L =>
      have hles : keyView (modeUserKey u .current_month)
          (applyLessonUpdate u s t L
            (applyPeriodUpdate .current_week u s t
              (applyPeriodUpdate .current_month u s t st))) =
          keyView (modeUserKey u .current_month)
            (applyPeriodUpdate .current_week u s t
              (applyPeriodUpdate .current_month u s t st)) :=
        keyView_applyLessonUpdate_other s t _
          (fun r hr => modeUserKey_of_lessonKey (by decide) r hr) (fun r => rfl)
      refine ⟨fun h => ?_, fun x h => ?_⟩
      · exact keyView_rerank_of_singleton hblind (keyView_rerank_of_singleton hblind
          (keyView_rerank_of_singleton hblind
            (hles.trans (hweek.trans (keyView_applyPeriodUpdate_nil s t h)))))
      · exact keyView_rerank_of_singleton hblind (keyView_rerank_of_singleton hblind
          (keyView_rerank_of_singleton hblind
            (hles.trans (hweek.trans (keyView_applyPeriodUpdate_acc s t h)))))

theorem keyView_update_week (st : Store) (u : Int) (s : ℚ) (t : Nat)
    (lesson_id : Option Nat) :
    (keyView (modeUserKey u .current_week) st = [] →
      keyView (modeUserKey u .current_week)
        (update_current_rankings st u s t lesson_id) = [(s, t)]) ∧
    ∀ x, keyView (modeUserKey u .current_week) st = [x] →
      keyView (modeUserKey u .current_week)
        (update_current_rankings st u s t lesson_id) = [(x.1 + s, x.2 + t)] := by
  have hblind := modeUserKey_rank_blind u .current_week
  have hmonth : keyView (modeUserKey u .current_week)
      (applyPeriodUpdate .current_month u s t st) =
      keyView (modeUserKey u .current_week) st :=
    keyView_applyPeriodUpdate_other s t _
      (fun r hr => modeUserKey_of_mode_ne (by decide) r hr) (fun r => rfl)
  simp only [update_current_rankings]
  cases lesson_id with
  | none =>
      refine ⟨fun h => ?_, fun x h => ?_⟩
      · exact keyView_rerank_of_singleton hblind (keyView_rerank_of_singleton hblind
          (keyView_applyPeriodUpdate_nil s t (hmonth.trans h)))
      · exact keyView_rerank_of_singleton hblind (keyView_rerank_of_singleton hblind
          (keyView_applyPeriodUpdate_acc s t (hmonth.trans h)))
  | some L =>
      have hles : ∀ st' : Store, keyView (modeUserKey u .current_week)
          (applyLessonUpdate u s t L st') =
          keyView (modeUserKey u .current_week) st' :=
        fun st' => keyView_applyLessonUpdate_other s t st'
          (fun r hr => modeUserKey_of_lessonKey (by decide) r hr) (fun r => rfl)
      refine ⟨fun h => ?_, fun x h => ?_⟩
      · exact keyView_rerank_of_singleton hblind (keyView_rerank_of_singleton hblind
          (keyView_rerank_of_singleton hblind
            ((hles _).trans (keyView_applyPeriodUpdate_nil s t (hmonth.trans h)))))
      · exact keyView_rerank_of_singleton hblind (keyView_rerank_of_singleton hblind
          (keyView_rerank_of_singleton hblind
            ((hles _).trans (keyView_applyPeriodUpdate_acc s t (hmonth.trans h)))))

theorem keyView_update_lesson (st : Store) (u : Int) (s : ℚ) (t : Nat) (L : Nat) :
    (keyView (lessonKey u L) st = [] →
      keyView (lessonKey u L) (update_current_rankings st u s t (some L)) = [(s, t)]) ∧
    ∀ x, keyView (lessonKey u L) st = [x] →
      keyView (lessonKey u L) (update_current_rankings st u s t (some L)) =
        [if betterB (s, t) x then (s, t) else x] := by
  have hblind := lessonKey_rank_blind u L
  have hmonth : keyView (lessonKey u L)
      (applyPeriodUpdate .current_month u s t st) = keyView (lessonKey u L) st :=
    keyView_applyPeriodUpdate_other s t _
      (fun r hr => lessonKey_of_modeUserKey (by decide) r hr) (lessonKey_bump u L s t)
  have hweek : keyView (lessonKey u L)
      (applyPeriodUpdate .current_week u s t
        (applyPeriodUpdate .current_month u s t st)) =
      keyView (lessonKey u L) st := by
    rw [keyView_applyPeriodUpdate_other s t _
      (fun r hr => lessonKey_of_modeUserKey (by decide) r hr) (lessonKey_bump u L s t)]
    exact hmonth
  simp only [update_current_rankings]
  refine ⟨fun h => ?_, fun x h => ?_⟩
  · exact keyView_rerank_of_singleton hblind (keyView_rerank_of_singleton hblind
      (keyView_rerank_of_singleton hblind
        (keyView_applyLessonUpdate_nil s t (hweek.trans h))))
  · exact keyView_rerank_of_singleton hblind (keyView_rerank_of_singleton hblind
      (keyView_rerank_of_singleton hblind
        (keyView_applyLessonUpdate_best s t (hweek.trans h))))

theorem betterB_eq_true_iff {n o : ℚ × Nat} :
    betterB n o = true ↔ (o.1 < n.1 ∨ (n.1 = o.1 ∧ n.2 < o.2)) := by
  simp [betterB]

theorem betterB_irrefl (a : ℚ × Nat) : betterB a a = false := by
  simp [betterB]

theorem betterB_eq_false_iff {n o : ℚ × Nat} :
    betterB n o = false ↔ ¬(o.1 < n.1 ∨ (n.1 = o.1 ∧ n.2 < o.2)) := by
  rw [← betterB_eq_true_iff]
  simp

theorem betterB_asymm {a b : ℚ × Nat} (h : betterB a b = true) :
    betterB b a = false := by
  rw [betterB_eq_true_iff] at h
  rw [betterB_eq_false_iff]
  push_neg
  constructor
  · rcases h with h | ⟨h1, h2⟩
    · exact h.le
    · exact le_of_eq h1.symm
  · intro hba
    rcases h with h | ⟨h1, h2⟩
    · exact absurd h (by rw [hba]; exact lt_irrefl _)
    · exact h2.le

theorem notBetter_trans {a b c : ℚ × Nat}
    (h1 : betterB a b = false) (h2 : betterB b c = false) :
    betterB a c = false := by
  rw [betterB_eq_false_iff] at h1 h2 ⊢
  push_neg at h1 h2 ⊢
  obtain ⟨h1l, h1r⟩ := h1
  obtain ⟨h2l, h2r⟩ := h2
  constructor
  · exact le_trans h1l h2l
  · intro hac
    have hab : a.1 = b.1 := le_antisymm h1l (by rw [hac]; exact h2l)
    have hbc : b.1 = c.1 := by rw [← hab, ← hac]
    have t1 := h1r hab
    have t2 := h2r hbc
    omega

theorem notBetter_antisymm {a b : ℚ × Nat}
    (h1 : betterB a b = false) (h2 : betterB b a = false) : a = b := by
  rw [betterB_eq_false_iff] at h1 h2
  push_neg at h1 h2
  obtain ⟨h1l, h1r⟩ := h1
  obtain ⟨h2l, h2r⟩ := h2
  have hs : a.1 = b.1 := le_antisymm h1l h2l
  have ht : a.2 = b.2 := le_antisymm (h2r hs.symm) (h1r hs)
  exact Prod.ext hs ht

theorem betterB_bestPair_left (x e : ℚ × Nat) : betterB x (bestPair x e) = false := by
  unfold bestPair
  by_cases h : betterB e x = true
  · rw [if_pos h]
    exact betterB_asymm h
  · rw [if_neg h]
    exact betterB_irrefl x

theorem betterB_bestPair_right (x e : ℚ × Nat) : betterB e (bestPair x e) = false := by
  unfold bestPair
  by_cases h : betterB e x = true
  · rw [if_pos h]
    exact betterB_irrefl e
  · rw [if_neg h]
    exact Bool.not_eq_true _ ▸ h

theorem foldl_bestPair_mem : ∀ (l : List (ℚ × Nat)) (x : ℚ × Nat),
    l.foldl bestPair x ∈ x :: l := by
  intro l
  induction l with
  | nil => intro x; simp
  | cons e es ih =>
      intro x
      simp only [List.foldl_cons]
      have h := ih (bestPair x e)
      have hbp : bestPair x e = e ∨ bestPair x e = x := by
        unfold bestPair
        by_cases hb : betterB e x = true
        · exact Or.inl (if_pos hb)
        · exact Or.inr (if_neg hb)
      rcases List.mem_cons.mp h with h' | h'
      · rcases hbp with hb | hb
        · rw [h', hb]; simp
        · rw [h', hb]; simp
      · simp [h']

theorem foldl_bestPair_notBetter : ∀ (l : List (ℚ × Nat)) (x y : ℚ × Nat),
    y ∈ x :: l → betterB y (l.foldl bestPair x) = false := by
  intro l
  induction l with
  | nil =>
      intro x y hy
      simp at hy
      subst hy
      exact betterB_irrefl _
  | cons e es ih =>
      intro x y hy
      simp only [List.foldl_cons]
      have hres : betterB (bestPair x e) (es.foldl bestPair (bestPair x e)) = false :=
        ih (bestPair x e) (bestPair x e) (List.mem_cons_self _ _)
      rcases List.mem_cons.mp hy with h' | h'
      · subst h'
        exact notBetter_trans (betterB_bestPair_left y e) hres
      · rcases List.mem_cons.mp h' with h'' | h''
        · subst h''
          exact notBetter_trans (betterB_bestPair_right x y) hres
        · exact ih (bestPair x e) y (List.mem_cons_of_mem _ h'')

theorem find?_of_keyView_singleton {p : TopPerformanceOverall → Bool} {st : Store}
    {x : ℚ × Nat} (h : keyView p st = [x]) :
    ∃ r, st.find? p = some r ∧ r.score = x.1 ∧ r.time = x.2 := by
  obtain ⟨r, hf, hs, ht⟩ := keyView_eq_singleton_iff.mp h
  exact ⟨r, by rw [find?_eq_head?_filter, hf]; rfl, hs, ht⟩

theorem keyView_fold_month :
    ∀ (evs : List CompletionEvent) (st : Store) (u : Int) (x : ℚ × Nat),
    keyView (modeUserKey u .current_month) st = [x] →
    keyView (modeUserKey u .current_month)
      (evs.foldl (fun st e =>
        update_current_rankings st u e.score_delta e.time_delta e.lesson_id) st) =
      [(x.1 + (evs.map (fun e => e.score_delta)).sum,
        x.2 + (evs.map (fun e => e.time_delta)).sum)] := by
  intro evs
  induction evs with
  | nil => intro st u x h; simpa using h
  | cons e es ih =>
      intro st u x h
      simp only [List.foldl_cons, List.map_cons, List.sum_cons]
      have h1 := (keyView_update_month st u e.score_delta e.time_delta e.lesson_id).2 x h
      rw [ih _ u _ h1]
      simp [add_assoc]

theorem keyView_fold_week :
    ∀ (evs : List CompletionEvent) (st : Store) (u : Int) (x : ℚ × Nat),
    keyView (modeUserKey u .current_week) st = [x] →
    keyView (modeUserKey u .current_week)
      (evs.foldl (fun st e =>
        update_current_rankings st u e.score_delta e.time_delta e.lesson_id) st) =
      [(x.1 + (evs.map (fun e => e.score_delta)).sum,
        x.2 + (evs.map (fun e => e.time_delta)).sum)] := by
  intro evs
  induction evs with
  | nil => intro st u x h; simpa using h
  | cons e es ih =>
      intro st u x h
      simp only [List.foldl_cons, List.map_cons, List.sum_cons]
      have h1 := (keyView_update_week st u e.score_delta e.time_delta e.lesson_id).2 x h
      rw [ih _ u _ h1]
      simp [add_assoc]

theorem keyView_fold_lesson :
    ∀ (evs : List (ℚ × Nat)) (st : Store) (u : Int) (L : Nat) (x : ℚ × Nat),
    keyView (lessonKey u L) st = [x] →
    keyView (lessonKey u L)
      (evs.foldl (fun st e => update_current_rankings st u e.1 e.2 (some L)) st) =
      [evs.foldl bestPair x] := by
  intro evs
  induction evs with
  | nil => intro st u L x h; simpa using h
  | cons e es ih =>
      intro st u L x h
      simp only [List.foldl_cons]
      have h1 := (keyView_update_lesson st u e.1 e.2 L).2 x h
      have hbp : (if betterB (e.1, e.2) x then (e.1, e.2) else x) = bestPair x e := by
        unfold bestPair
        rfl
      rw [hbp] at h1
      exact ih _ u L _ h1

/-- C6: for every finite sequence of completion events applied via
ApplyCompletion (update_current_rankings) for the same user, starting from a
store holding no current_month and no current_week record for that user, the
final stored score of the user's current_month record (and likewise the
current_week record) equals the sum of all score deltas and the final stored
time equals the sum of all time deltas — and this holds for every arrival
order (the fold runs over an arbitrary permutation of the event sequence
while the sums range over the sequence itself). -/
theorem claim_C6_accumulation_invariant (st : Store) (u : Int)
    (evs evs2 : List CompletionEvent) (hperm : List.Perm evs2 evs)
    (hm : keyView (modeUserKey u .current_month) st = [])
    (hw : keyView (modeUserKey u .current_week) st = [])
    (hne : evs ≠ []) :
    (∃ r, ((evs2.foldl (fun st e =>
        update_current_rankings st u e.score_delta e.time_delta e.lesson_id) st).find?
          (modeUserKey u .current_month)) = some r ∧
      r.score = (evs.map (fun e => e.score_delta)).sum ∧
      r.time = (evs.map (fun e => e.time_delta)).sum) ∧
    (∃ r, ((evs2.foldl (fun st e =>
        update_current_rankings st u e.score_delta e.time_delta e.lesson_id) st).find?
          (modeUserKey u .current_week)) = some r ∧
      r.score = (evs.map (fun e => e.score_delta)).sum ∧
      r.time = (evs.map (fun e => e.time_delta)).sum) := by
  have hne2 : evs2 ≠ [] := by
    intro hcontra
    rw [hcontra] at hperm
    exact hne (List.Perm.nil_eq hperm).symm
  obtain ⟨e, es, rfl⟩ := List.exists_cons_of_ne_nil hne2
  have hsum_s : (List.map (fun e => e.score_delta) (e :: es)).sum =
      (evs.map (fun e => e.score_delta)).sum := (hperm.map _).sum_eq
  have hsum_t : (List.map (fun e => e.time_delta) (e :: es)).sum =
      (evs.map (fun e => e.time_delta)).sum := (hperm.map _).sum_eq
  constructor
  · have h1 := (keyView_update_month st u e.score_delta e.time_delta e.lesson_id).1 hm
    have h2 := keyView_fold_month es _ u _ h1
    rw [List.foldl_cons]
    obtain ⟨r, hf, hs, ht⟩ := find?_of_keyView_singleton h2
    refine ⟨r, hf, ?_, ?_⟩
    · rw [hs, ← hsum_s]
      simp
    · rw [ht, ← hsum_t]
      simp
  · have h1 := (keyView_update_week st u e.score_delta e.time_delta e.lesson_id).1 hw
    have h2 := keyView_fold_week es _ u _ h1
    rw [List.foldl_cons]
    obtain ⟨r, hf, hs, ht⟩ := find?_of_keyView_singleton h2
    refine ⟨r, hf, ?_, ?_⟩
    · rw [hs, ← hsum_s]
      simp
    · rw [ht, ← hsum_t]
      simp

/-- Witness for C6 at a concrete input: two events (score 2, time 3) and
(score 1, time 4, on lesson 5) applied in swapped order to the empty store
leave user 1 with score 3 = 2 + 1 and time 7 = 3 + 4 in both the
current_month and the current_week partition. -/
theorem claim_C6_accumulation_witness :
    storedScoreTime (modeUserKey 1 .current_month)
      (([⟨1, 4, some 5⟩, ⟨2, 3, none⟩] : List CompletionEvent).foldl
        (fun st e => update_current_rankings st 1 e.score_delta e.time_delta e.lesson_id)
        []) = some (3, 7) ∧
    storedScoreTime (modeUserKey 1 .current_week)
      (([⟨1, 4, some 5⟩, ⟨2, 3, none⟩] : List CompletionEvent).foldl
        (fun st e => update_current_rankings st 1 e.score_delta e.time_delta e.lesson_id)
        []) = some (3, 7) := by
  have h := claim_C6_accumulation_invariant [] 1
    [⟨2, 3, none⟩, ⟨1, 4, some 5⟩] [⟨1, 4, some 5⟩, ⟨2, 3, none⟩]
    (List.Perm.swap _ _ _) rfl rfl (by simp)
  obtain ⟨⟨rm, hfm, hsm, htm⟩, ⟨rw', hfw, hsw, htw⟩⟩ := h
  constructor
  · unfold storedScoreTime
    rw [hfm]
    show some (rm.score, rm.time) = some (3, 7)
    rw [hsm, htm]
    norm_num
  · unfold storedScoreTime
    rw [hfw]
    show some (rw'.score, rw'.time) = some (3, 7)
    rw [hsw, htw]
    norm_num

/-- C5: for every finite sequence of completion events applied via
ApplyCompletion for the same (user, lesson) in the by_lesson partition,
starting from a store with no record for that key, the final stored
(score, time) pair is an entry of the sequence that no entry of the sequence
strictly beats under the rule score descending then time ascending — for
every arrival order (the fold runs over an arbitrary permutation of the
sequence); together with the antisymmetry of the comparison this pins the
stored pair to the unique maximal entry, independent of arrival order.
The second conjunct states the single-step rule: a stored attempt is
replaced only when the new one is strictly better (higher score, or equal
score and strictly smaller time), else left in place. -/
theorem claim_C5_best_attempt_invariant (st : Store) (u : Int) (L : Nat)
    (evs evs2 : List (ℚ × Nat)) (hperm : List.Perm evs2 evs)
    (h0 : keyView (lessonKey u L) st = [])
    (hne : evs ≠ []) :
    (∃ r, ((evs2.foldl (fun st e => update_current_rankings st u e.1 e.2 (some L)) st).find?
        (lessonKey u L)) = some r ∧
      (r.score, r.time) ∈ evs ∧
      ∀ p ∈ evs, betterB p (r.score, r.time) = false) ∧
    ∀ (st2 : Store) (x e : ℚ × Nat), keyView (lessonKey u L) st2 = [x] →
      keyView (lessonKey u L) (update_current_rankings st2 u e.1 e.2 (some L)) =
        [if betterB e x then e else x] := by
  constructor
  · have hne2 : evs2 ≠ [] := by
      intro hcontra
      rw [hcontra] at hperm
      exact hne (List.Perm.nil_eq hperm).symm
    obtain ⟨e, es, rfl⟩ := List.exists_cons_of_ne_nil hne2
    have h1 := (keyView_update_lesson st u e.1 e.2 L).1 h0
    have h2 := keyView_fold_lesson es _ u L _ h1
    rw [List.foldl_cons]
    obtain ⟨r, hf, hs, ht⟩ := find?_of_keyView_singleton h2
    have hpair : (r.score, r.time) = es.foldl bestPair e := by
      rw [Prod.ext_iff]
      exact ⟨hs, ht⟩
    refine ⟨r, hf, ?_, ?_⟩
    · rw [hpair]
      exact hperm.mem_iff.mp (foldl_bestPair_mem es e)
    · intro p hp
      rw [hpair]
      exact foldl_bestPair_notBetter es e p (hperm.symm.mem_iff.mp hp)
  · intro st2 x e hx
    exact (keyView_update_lesson st2 u e.1 e.2 L).2 x hx

/-- Witness for C5 at the spec's scenario: attempts (70, 120), (85, 150),
(85, 100) for user 1 on lesson 7, applied to the empty store, leave the
stored by_lesson pair at (85, 100): the higher score wins despite the slower
time, then the equal-score faster attempt replaces it. -/
theorem claim_C5_best_attempt_witness :
    storedScoreTime (lessonKey 1 7)
      (([((70 : ℚ), (120 : Nat)), (85, 150), (85, 100)]).foldl
        (fun st e => update_current_rankings st 1 e.1 e.2 (some 7)) []) =
      some (85, 100) := by
  obtain ⟨r, hf, hmem, hmax⟩ := (claim_C5_best_attempt_invariant [] 1 7
    [((70 : ℚ), (120 : Nat)), (85, 150), (85, 100)]
    [((70 : ℚ), (120 : Nat)), (85, 150), (85, 100)]
    (List.Perm.refl _) rfl (by simp)).1
  have hmem' : (r.score, r.time) = ((70 : ℚ), (120 : Nat)) ∨
      (r.score, r.time) = (85, 150) ∨ (r.score, r.time) = (85, 100) := by
    simpa using hmem
  have hval : (r.score, r.time) = ((85 : ℚ), (100 : Nat)) := by
    rcases hmem' with h | h | h
    · exfalso
      have := hmax (85, 150) (by simp)
      rw [h] at this
      rw [betterB_eq_false_iff] at this
      exact this (Or.inl (by norm_num))
    · exfalso
      have := hmax (85, 100) (by simp)
      rw [h] at this
      rw [betterB_eq_false_iff] at this
      exact this (Or.inr ⟨rfl, by norm_num⟩)
    · exact h
  unfold storedScoreTime
  rw [hf]
  show some (r.score, r.time) = some ((85 : ℚ), (100 : Nat))
  rw [hval]

theorem flip_filter_current (st : Store) :
    (flip_week_rankings st).store.filter (fun r => r.mode == .current_week) = [] := by
  unfold flip_week_rankings
  dsimp only
  rw [List.filter_eq_nil_iff]
  intro a ha
  obtain ⟨b, hb, hab⟩ := List.mem_map.mp ha
  by_cases hcw : b.mode = .current_week
  · rw [if_pos (by simp [hcw])] at hab
    rw [← hab]
    simp
  · rw [if_neg (by simp [hcw])] at hab
    rw [← hab]
    simp [hcw]

theorem flip_filter_last (st : Store) :
    (flip_week_rankings st).store.filter (fun r => r.mode == .last_week) =
      (st.filter (fun r => r.mode == .current_week)).map
        (fun r => { r with mode := .last_week }) := by
  unfold flip_week_rankings
  dsimp only
  induction st with
  | nil => rfl
  | cons hd tl ih =>
      by_cases hlw : hd.mode = .last_week
      · have hcw : ¬hd.mode = .current_week := by rw [hlw]; simp
        rw [List.filter_cons_of_neg (by simp [hlw]),
            List.filter_cons_of_neg (by simp [hcw])]
        exact ih
      · rw [List.filter_cons_of_pos (by simp [hlw])]
        by_cases hcw : hd.mode = .current_week
        · rw [List.map_cons, if_pos (by simp [hcw]),
              List.filter_cons_of_pos (by simp),
              List.filter_cons_of_pos (by simp [hcw]), List.map_cons]
          rw [ih]
        · rw [List.map_cons, if_neg (by simp [hcw]),
              List.filter_cons_of_neg (by simp [hlw]),
              List.filter_cons_of_neg (by simp [hcw])]
          exact ih

theorem flip_flipped_count (st : Store) :
    (flip_week_rankings st).flipped =
      (st.filter (fun r => r.mode == .current_week)).length := by
  unfold flip_week_rankings
  dsimp only
  rw [List.filter_filter]
  congr 1
  apply List.filter_congr
  intro r hr
  by_cases hcw : r.mode = .current_week
  · simp [hcw]
  · simp [hcw]

theorem flip_deleted_count (st : Store) :
    (flip_week_rankings st).deleted =
      (st.filter (fun r => r.mode == .last_week)).length := rfl

/-- C4: after flip_week_rankings returns, the store holds zero current_week
rows, and the last_week rows are exactly the rows that held current_week
immediately before the call, each with only the mode column relabeled (score,
time, performance — and every other column — unchanged); in particular every
pre-call current_week row survives as the same row with mode last_week. -/
theorem claim_C4_rollover_emptying (st : Store) :
    (flip_week_rankings st).store.filter (fun r => r.mode == .current_week) = [] ∧
    (flip_week_rankings st).store.filter (fun r => r.mode == .last_week) =
      (st.filter (fun r => r.mode == .current_week)).map
        (fun r => { r with mode := .last_week }) ∧
    ∀ r ∈ st, r.mode = .current_week →
      { r with mode := RankingModeEnum.last_week } ∈ (flip_week_rankings st).store := by
  refine ⟨flip_filter_current st, flip_filter_last st, ?_⟩
  intro r hr hcw
  have : ({ r with mode := RankingModeEnum.last_week } : TopPerformanceOverall) ∈
      (flip_week_rankings st).store.filter (fun r => r.mode == .last_week) := by
    rw [flip_filter_last st]
    exact List.mem_map.mpr ⟨r, List.mem_filter.mpr ⟨hr, by simp [hcw]⟩, rfl⟩
  exact (List.mem_filter.mp this).1

/-- Witness for C4 at a concrete input: flipping a store holding one
current_week row for user 1 leaves no current_week row and keeps the row,
relabeled to last_week, with all other columns intact. -/
theorem claim_C4_rollover_witness :
    ({ mode := RankingModeEnum.last_week, user_id := 1, rank := 2, score := 5,
       time := 9, performance := 7, lesson_id := none } : TopPerformanceOverall) ∈
      (flip_week_rankings
        [{ mode := RankingModeEnum.current_week, user_id := 1, rank := 2, score := 5,
           time := 9, performance := 7, lesson_id := none }]).store ∧
    (flip_week_rankings
        [{ mode := RankingModeEnum.current_week, user_id := 1, rank := 2, score := 5,
           time := 9, performance := 7, lesson_id := none }]).store.filter
      (fun r => r.mode == .current_week) = [] := by
  constructor
  · exact (claim_C4_rollover_emptying _).2.2 _ (List.mem_singleton_self _) rfl
  · exact (claim_C4_rollover_emptying _).1

/-- C1 counterexample: on a store holding exactly one current_week row, the
second of two consecutive flip_week_rankings calls does not leave the store as
the first call left it — it deletes the row the first call relabeled
(deleted count 1, not 0), emptying last_week as well. -/
theorem claim_C1_counterexample :
    (flip_week_rankings (flip_week_rankings
        [{ mode := RankingModeEnum.current_week, user_id := 1, rank := 1, score := 1,
           time := 1, performance := 1, lesson_id := none }]).store).store ≠
      (flip_week_rankings
        [{ mode := RankingModeEnum.current_week, user_id := 1, rank := 1, score := 1,
           time := 1, performance := 1, lesson_id := none }]).store ∧
    (flip_week_rankings (flip_week_rankings
        [{ mode := RankingModeEnum.current_week, user_id := 1, rank := 1, score := 1,
           time := 1, performance := 1, lesson_id := none }]).store).deleted = 1 := by
  constructor
  · intro h
    simp [flip_week_rankings] at h
  · simp [flip_week_rankings]

/-- C1 as amended: calling flip_week_rankings twice consecutively with no
intervening completion events leaves the current_week partition empty after
both calls and relabels nothing on the second call (no double-relabel and no
error: bulk deletes of an already-empty selection are counted, not failed);
however the second call deletes exactly the rows the first call relabeled
(its deleted count equals the first call's relabeled count), leaving the
last_week partition empty too — so the store state after the second call
equals the state after the first only when the first call relabeled
nothing. -/
theorem claim_C1_amended_rollover_repetition (st : Store) :
    (flip_week_rankings (flip_week_rankings st).store).store.filter
      (fun r => r.mode == .current_week) = [] ∧
    (flip_week_rankings st).store.filter (fun r => r.mode == .current_week) = [] ∧
    (flip_week_rankings (flip_week_rankings st).store).flipped = 0 ∧
    (flip_week_rankings (flip_week_rankings st).store).deleted =
      (flip_week_rankings st).flipped ∧
    (flip_week_rankings (flip_week_rankings st).store).store.filter
      (fun r => r.mode == .last_week) = [] := by
  refine ⟨flip_filter_current _, flip_filter_current st, ?_, ?_, ?_⟩
  · rw [flip_flipped_count, flip_filter_current st]
    rfl
  · rw [flip_deleted_count, flip_filter_last st, List.length_map,
        flip_flipped_count]
  · rw [flip_filter_last, flip_filter_current st]
    rfl

theorem rankingPairLE_eq_true_iff {m : RankingModeEnum} {a b : ℚ × Nat} :
    rankingPairLE m a b = true ↔
      (b.1 < a.1 ∨ (a.1 = b.1 ∧
        (if m = .by_lesson then a.2 ≤ b.2 else b.2 ≤ a.2))) := by
  unfold rankingPairLE
  by_cases hm : m = .by_lesson
  · simp [hm]
  · simp [hm]

theorem rankingPairLE_trans {m : RankingModeEnum} {a b c : ℚ × Nat}
    (hab : rankingPairLE m a b = true) (hbc : rankingPairLE m b c = true) :
    rankingPairLE m a c = true := by
  rw [rankingPairLE_eq_true_iff] at hab hbc ⊢
  rcases hab with h1 | ⟨h1, t1⟩
  · rcases hbc with h2 | ⟨h2, t2⟩
    · exact Or.inl (h2.trans h1)
    · exact Or.inl (by rw [← h2]; exact h1)
  · rcases hbc with h2 | ⟨h2, t2⟩
    · exact Or.inl (by rw [h1]; exact h2)
    · refine Or.inr ⟨h1.trans h2, ?_⟩
      by_cases hm : m = .by_lesson
      · rw [if_pos hm] at t1 t2 ⊢
        omega
      · rw [if_neg hm] at t1 t2 ⊢
        omega

theorem rankingPairLE_total (m : RankingModeEnum) (a b : ℚ × Nat) :
    rankingPairLE m a b || rankingPairLE m b a := by
  rw [Bool.or_eq_true, rankingPairLE_eq_true_iff, rankingPairLE_eq_true_iff]
  rcases lt_trichotomy a.1 b.1 with h | h | h
  · right; left; exact h
  · by_cases hm : m = .by_lesson
    · rcases Nat.le_total a.2 b.2 with ht | ht
      · left; right; exact ⟨h, by rw [if_pos hm]; exact ht⟩
      · right; right; exact ⟨h.symm, by rw [if_pos hm]; exact ht⟩
    · rcases Nat.le_total a.2 b.2 with ht | ht
      · right; right; exact ⟨h.symm, by rw [if_neg hm]; exact ht⟩
      · left; right; exact ⟨h, by rw [if_neg hm]; exact ht⟩
  · left; left; exact h

theorem rankingLE_trans (m : RankingModeEnum) :
    ∀ a b c : TopPerformanceOverall,
      rankingLE m a b → rankingLE m b c → rankingLE m a c :=
  fun _ _ _ hab hbc => rankingPairLE_trans hab hbc

theorem rankingLE_total (m : RankingModeEnum) :
    ∀ a b : TopPerformanceOverall, rankingLE m a b || rankingLE m b a :=
  fun a b => rankingPairLE_total m (a.score, a.time) (b.score, b.time)

theorem assignRanksFrom_map_rank :
    ∀ (n : Nat) (l : List TopPerformanceOverall),
    (assignRanksFrom n l).map (fun r => r.rank) = List.range' n l.length := by
  intro n l
  induction l generalizing n with
  | nil => rfl
  | cons hd tl ih =>
      simp only [assignRanksFrom, List.map_cons, List.length_cons, ih (n + 1)]
      rw [List.range'_succ]

theorem assignRanksFrom_map_stripRank :
    ∀ (n : Nat) (l : List TopPerformanceOverall),
    (assignRanksFrom n l).map stripRank = l.map stripRank := by
  intro n l
  induction l generalizing n with
  | nil => rfl
  | cons hd tl ih =>
      simp only [assignRanksFrom, List.map_cons, ih (n + 1)]
      rfl

theorem mem_assignRanksFrom {a : TopPerformanceOverall} :
    ∀ {n : Nat} {l : List TopPerformanceOverall}, a ∈ assignRanksFrom n l →
      ∃ b ∈ l, ∃ k, a = { b with rank := k } := by
  intro n l
  induction l generalizing n with
  | nil => intro h; simp [assignRanksFrom] at h
  | cons hd tl ih =>
      intro h
      rcases List.mem_cons.mp h with h' | h'
      · exact ⟨hd, List.mem_cons_self _ _, n, h'⟩
      · obtain ⟨b, hb, k, hk⟩ := ih h'
        exact ⟨b, List.mem_cons_of_mem _ hb, k, hk⟩

theorem filter_rerank_partition (st : Store) (m : RankingModeEnum)
    (lesson_id : Option Nat) :
    (rerank_mode st m lesson_id).filter (partitionPred m lesson_id) =
      assignRanksFrom 1
        ((st.filter (partitionPred m lesson_id)).mergeSort (rankingLE m)) := by
  unfold rerank_mode
  rw [List.filter_append]
  have h1 : (st.filter (fun r => !partitionPred m lesson_id r)).filter
      (partitionPred m lesson_id) = [] := by
    rw [List.filter_eq_nil_iff]
    intro a ha
    have := (List.mem_filter.mp ha).2
    simp only [Bool.not_eq_true'] at this
    simp [this]
  have h2 : (assignRanksFrom 1
      ((st.filter (partitionPred m lesson_id)).mergeSort (rankingLE m))).filter
      (partitionPred m lesson_id) =
      assignRanksFrom 1
        ((st.filter (partitionPred m lesson_id)).mergeSort (rankingLE m)) := by
    rw [List.filter_eq_self]
    intro a ha
    obtain ⟨b, hb, k, rfl⟩ := mem_assignRanksFrom ha
    have hbmem : b ∈ st.filter (partitionPred m lesson_id) :=
      (List.mergeSort_perm _ _).mem_iff.mp hb
    exact (List.mem_filter.mp hbmem).2
  rw [h1, h2, List.nil_append]

theorem pairwise_rankingLE_assignRanksFrom {m : RankingModeEnum} :
    ∀ (n : Nat) (l : List TopPerformanceOverall),
      l.Pairwise (fun a b => rankingLE m a b = true) →
      (assignRanksFrom n l).Pairwise (fun a b => rankingLE m a b = true) := by
  intro n l
  induction l generalizing n with
  | nil => intro _; exact List.Pairwise.nil
  | cons hd tl ih =>
      intro h
      rcases List.pairwise_cons.mp h with ⟨hhd, htl⟩
      refine List.pairwise_cons.mpr ⟨?_, ih (n + 1) htl⟩
      intro b hb
      obtain ⟨x, hx, k, rfl⟩ := mem_assignRanksFrom hb
      exact hhd x hx

/-- C7: after any Rerank(mode, lesson_id?) call, the ranks of the partition's
rows are exactly 1, 2, ..., N in list order (N the partition's record count),
the partition is listed in the mode's comparator order — score descending,
tie-break time descending for current_month/current_week and time ascending
for by_lesson — and the partition's rows are preserved up to the rank
column. -/
theorem claim_C7_rank_totality (st : Store) (m : RankingModeEnum)
    (lesson_id : Option Nat) :
    ((rerank_mode st m lesson_id).filter (partitionPred m lesson_id)).map
        (fun r => r.rank) =
      List.range' 1 (st.filter (partitionPred m lesson_id)).length ∧
    ((rerank_mode st m lesson_id).filter (partitionPred m lesson_id)).Pairwise
      (fun a b => rankingLE m a b = true) ∧
    List.Perm
      (((rerank_mode st m lesson_id).filter (partitionPred m lesson_id)).map stripRank)
      ((st.filter (partitionPred m lesson_id)).map stripRank) := by
  rw [filter_rerank_partition]
  refine ⟨?_, ?_, ?_⟩
  · rw [assignRanksFrom_map_rank]
    congr 1
    exact (List.mergeSort_perm _ _).length_eq
  · exact pairwise_rankingLE_assignRanksFrom 1 _
      (List.sorted_mergeSort (rankingLE_trans m) (rankingLE_total m) _)
  · rw [assignRanksFrom_map_stripRank]
    exact (List.mergeSort_perm _ _).map stripRank

theorem mem_updateFirst {p : TopPerformanceOverall → Bool}
    {f : TopPerformanceOverall → TopPerformanceOverall} {r : TopPerformanceOverall} :
    ∀ {l : Store}, r ∈ updateFirst p f l → r ∈ l ∨ ∃ x ∈ l, r = f x := by
  intro l
  induction l with
  | nil => intro h; simp [updateFirst] at h
  | cons hd tl ih =>
      intro h
      by_cases hp : p hd
      · rw [updateFirst, if_pos hp] at h
        rcases List.mem_cons.mp h with h' | h'
        · exact Or.inr ⟨hd, List.mem_cons_self _ _, h'⟩
        · exact Or.inl (List.mem_cons_of_mem _ h')
      · rw [updateFirst, if_neg hp] at h
        rcases List.mem_cons.mp h with h' | h'
        · exact Or.inl (by rw [h']; exact List.mem_cons_self _ _)
        · rcases ih h' with h'' | ⟨x, hx, hfx⟩
          · exact Or.inl (List.mem_cons_of_mem _ h'')
          · exact Or.inr ⟨x, List.mem_cons_of_mem _ hx, hfx⟩

theorem perfConsistent_bump (s : ℚ) (t : Nat) (r : TopPerformanceOverall) :
    perfConsistent (bumpRecord s t r) := rfl

theorem perfConsistent_newPeriodRecord (m : RankingModeEnum) (u : Int)
    (s : ℚ) (t : Nat) : perfConsistent (newPeriodRecord m u s t) := rfl

theorem perfConsistent_newLessonRecord (u : Int) (s : ℚ) (t : Nat) (L : Nat) :
    perfConsistent (newLessonRecord u s t L) := rfl

theorem perfConsistent_setRank {r : TopPerformanceOverall} (k : Nat)
    (h : perfConsistent r) : perfConsistent { r with rank := k } := h

theorem storeConsistent_applyPeriodUpdate {st : Store} {m : RankingModeEnum}
    {u : Int} {s : ℚ} {t : Nat} (h : storeConsistent st) :
    storeConsistent (applyPeriodUpdate m u s t st) := by
  unfold applyPeriodUpdate
  cases st.find? (modeUserKey u m) with
  | some r0 =>
      intro r hr
      rcases mem_updateFirst hr with h' | ⟨x, hx, rfl⟩
      · exact h r h'
      · exact perfConsistent_bump s t x
  | none =>
      intro r hr
      rcases List.mem_append.mp hr with h' | h'
      · exact h r h'
      · rw [List.mem_singleton.mp h']
        exact perfConsistent_newPeriodRecord m u s t

theorem storeConsistent_applyLessonUpdate {st : Store} {u : Int} {s : ℚ}
    {t : Nat} {L : Nat} (h : storeConsistent st) :
    storeConsistent (applyLessonUpdate u s t L st) := by
  unfold applyLessonUpdate
  cases st.find? (lessonKey u L) with
  | some r0 =>
      dsimp only
      by_cases hb : betterB (s, t) (r0.score, r0.time)
      · rw [if_pos hb]
        intro r hr
        rcases mem_updateFirst hr with h' | ⟨x, hx, rfl⟩
        · exact h r h'
        · exact rfl
      · rw [if_neg hb]
        exact h
  | none =>
      intro r hr
      rcases List.mem_append.mp hr with h' | h'
      · exact h r h'
      · rw [List.mem_singleton.mp h']
        exact perfConsistent_newLessonRecord u s t L

theorem storeConsistent_rerank {st : Store} {m : RankingModeEnum}
    {lesson_id : Option Nat} (h : storeConsistent st) :
    storeConsistent (rerank_mode st m lesson_id) := by
  intro r hr
  unfold rerank_mode at hr
  rcases List.mem_append.mp hr with h' | h'
  · exact h r (List.mem_filter.mp h').1
  · obtain ⟨b, hb, k, rfl⟩ := mem_assignRanksFrom h'
    have hbst : b ∈ st :=
      (List.mem_filter.mp ((List.mergeSort_perm _ _).mem_iff.mp hb)).1
    exact perfConsistent_setRank k (h b hbst)

/-- C2 counterexample: administrative update of a ranking
(method update_ranking, applying a TopPerformanceUpdate payload field by
field) can leave the stored performance inconsistent with the stored score
and time: updating only the score of a consistent row
(score 1, time 1, performance 1) to 3 keeps performance at 1, while
score / time is now 3. -/
theorem claim_C2_counterexample :
    perfConsistent { mode := RankingModeEnum.current_month, user_id := 1, rank := 1,
                     score := 1, time := 1, performance := 1, lesson_id := none } ∧
    ¬ perfConsistent (applyRankingUpdate
      { rank := none, score := some 3, time := none, performance := none }
      { mode := RankingModeEnum.current_month, user_id := 1, rank := 1,
        score := 1, time := 1, performance := 1, lesson_id := none }) := by
  constructor
  · unfold perfConsistent
    norm_num
  · unfold applyRankingUpdate perfConsistent
    norm_num

/-- C2 as amended: along the incremental aggregation path, performance can
never drift — every row of the store produced by update_current_rankings
(ApplyCompletion) carries performance = score / time when time > 0 and 0
otherwise, provided every row of the input store did; every row the
operation writes recomputes performance from the new score and time.  The
administrative create/update operations, by contrast, store caller-supplied
fields verbatim and can break the derivation (see the counterexample). -/
theorem claim_C2_performance_invariant (st : Store) (u : Int) (s : ℚ) (t : Nat)
    (lesson_id : Option Nat) (h : storeConsistent st) :
    storeConsistent (update_current_rankings st u s t lesson_id) := by
  simp only [update_current_rankings]
  cases lesson_id with
  | none =>
      exact storeConsistent_rerank (storeConsistent_rerank
        (storeConsistent_applyPeriodUpdate (storeConsistent_applyPeriodUpdate h)))
  | some L =>
      exact storeConsistent_rerank (storeConsistent_rerank (storeConsistent_rerank
        (storeConsistent_applyLessonUpdate
          (storeConsistent_applyPeriodUpdate (storeConsistent_applyPeriodUpdate h)))))

/-- Witness for the amended C2 at a concrete input: the store built by one
completion event (score 2, time 3, lesson 4) for user 1 on the empty store is
performance-consistent throughout. -/
theorem claim_C2_performance_witness :
    storeConsistent (update_current_rankings [] 1 2 3 (some 4)) :=
  claim_C2_performance_invariant [] 1 2 3 (some 4)
    (fun r hr => absurd hr (List.not_mem_nil r))

theorem allTimeRecords_modes :
    ∀ (n : Nat) (us : List User) (r : TopPerformanceOverall),
      r ∈ allTimeRecords n us → r.mode = .all_time := by
  intro n us
  induction us generalizing n with
  | nil => intro r h; simp [allTimeRecords] at h
  | cons hd tl ih =>
      intro r h
      rcases List.mem_cons.mp h with h' | h'
      · rw [h']
      · exact ih (n + 1) r h'

/-- C3 counterexample: the engine does write RankingRecords with mode
all_time — the administrative backfill calculate_and_update_rankings called
with mode ALL_TIME materializes one all_time row per active positive-score
user; on a store that was empty and a users table with one such user, the
resulting store consists of exactly one row whose mode is all_time. -/
theorem claim_C3_counterexample :
    (calculate_all_time_rankings [c3user] []).map (fun r => r.mode) =
      [RankingModeEnum.all_time] := by
  have hfilter : List.filter (fun u : User => u.is_active && decide (0 < u.score))
      [c3user] = [c3user] := by
    norm_num [c3user]
  have hsort : ([c3user].mergeSort allTimeUserLE) = [c3user] :=
    List.perm_singleton.mp (List.mergeSort_perm _ _)
  unfold calculate_all_time_rankings
  rw [List.filter_nil, hfilter, hsort, List.nil_append]
  rfl

theorem filter_allTime_applyPeriodUpdate {m : RankingModeEnum} (hm : m ≠ .all_time)
    (u : Int) (s : ℚ) (t : Nat) (st : Store) :
    (applyPeriodUpdate m u s t st).filter (fun r => r.mode == .all_time) =
      st.filter (fun r => r.mode == .all_time) := by
  unfold applyPeriodUpdate
  cases st.find? (modeUserKey u m) with
  | some r0 =>
      apply filter_updateFirst_disjoint
      intro r hr
      have hmode : r.mode = m := by
        simp only [modeUserKey, Bool.and_eq_true, beq_iff_eq] at hr
        exact hr.2
      constructor
      · simp [hmode, hm]
      · show ((bumpRecord s t r).mode == RankingModeEnum.all_time) = false
        have : (bumpRecord s t r).mode = r.mode := rfl
        simp [this, hmode, hm]
  | none =>
      rw [List.filter_append]
      have : ((newPeriodRecord m u s t).mode == RankingModeEnum.all_time) = false := by
        show (m == RankingModeEnum.all_time) = false
        simp [hm]
      rw [List.filter_cons_of_neg (by simp [this]), List.filter_nil,
          List.append_nil]

theorem filter_allTime_applyLessonUpdate (u : Int) (s : ℚ) (t : Nat) (L : Nat)
    (st : Store) :
    (applyLessonUpdate u s t L st).filter (fun r => r.mode == .all_time) =
      st.filter (fun r => r.mode == .all_time) := by
  unfold applyLessonUpdate
  cases st.find? (lessonKey u L) with
  | some r0 =>
      dsimp only
      by_cases hb : betterB (s, t) (r0.score, r0.time)
      · rw [if_pos hb]
        apply filter_updateFirst_disjoint
        intro r hr
        have hmode : r.mode = .by_lesson := by
          simp only [lessonKey, Bool.and_eq_true, beq_iff_eq] at hr
          exact hr.1.2
        constructor
        · simp [hmode]
        · show (r.mode == RankingModeEnum.all_time) = false
          simp [hmode]
      · rw [if_neg hb]
  | none =>
      rw [List.filter_append]
      rw [List.filter_cons_of_neg (by simp [newLessonRecord]), List.filter_nil,
          List.append_nil]

theorem filter_allTime_rerank {m : RankingModeEnum} (hm : m ≠ .all_time)
    (st : Store) (lesson_id : Option Nat) :
    (rerank_mode st m lesson_id).filter (fun r => r.mode == .all_time) =
      st.filter (fun r => r.mode == .all_time) := by
  unfold rerank_mode
  rw [List.filter_append]
  have h2 : (assignRanksFrom 1
      ((st.filter (partitionPred m lesson_id)).mergeSort (rankingLE m))).filter
      (fun r => r.mode == .all_time) = [] := by
    rw [List.filter_eq_nil_iff]
    intro a ha
    obtain ⟨b, hb, k, rfl⟩ := mem_assignRanksFrom ha
    have hbp : partitionPred m lesson_id b = true :=
      (List.mem_filter.mp ((List.mergeSort_perm _ _).mem_iff.mp hb)).2
    have hmode : b.mode = m := by
      simp only [partitionPred, Bool.and_eq_true, beq_iff_eq] at hbp
      exact hbp.1
    show ¬(b.mode == RankingModeEnum.all_time) = true
    simp [hmode, hm]
  rw [h2, List.append_nil, List.filter_filter]
  apply List.filter_congr
  intro r hr
  by_cases hq : r.mode = .all_time
  · have : partitionPred m lesson_id r = false := by
      unfold partitionPred
      have : (r.mode == m) = false := by
        simp [hq]
        intro hc
        exact hm hc.symm
      simp [this]
    simp [this, hq]
  · simp [hq]

/-- C3 as amended: the steady-state engine never materializes all_time rows —
the incremental ApplyCompletion path (update_current_rankings) leaves the set
of all_time rows of the store exactly as it found it, and both
GetLeaderboard(all_time) and GetUserRank(all_time) are computed from the
users table alone, with the ranking store never consulted (the same answer
for every store).  The claim's universal form is false only of the
administrative backfill calculate_and_update_rankings(ALL_TIME) (and admin
create), which does write all_time rows — see the counterexample. -/
theorem claim_C3_all_time_not_materialized (st st' : Store) (users : List User)
    (u uid : Int) (s : ℚ) (t : Nat) (lesson_id lesson_id2 : Option Nat) (limit : Nat) :
    (update_current_rankings st u s t lesson_id).filter
        (fun r => r.mode == .all_time) =
      st.filter (fun r => r.mode == .all_time) ∧
    get_leaderboard users st .all_time lesson_id2 limit =
      get_leaderboard users st' .all_time lesson_id2 limit ∧
    get_user_rank users st uid .all_time lesson_id2 =
      get_user_rank users st' uid .all_time lesson_id2 := by
  refine ⟨?_, ?_, ?_⟩
  · simp only [update_current_rankings]
    cases lesson_id with
    | none =>
        rw [filter_allTime_rerank (by decide), filter_allTime_rerank (by decide),
            filter_allTime_applyPeriodUpdate (by decide),
            filter_allTime_applyPeriodUpdate (by decide)]
    | some L =>
        rw [filter_allTime_rerank (by decide), filter_allTime_rerank (by decide),
            filter_allTime_rerank (by decide), filter_allTime_applyLessonUpdate,
            filter_allTime_applyPeriodUpdate (by decide),
            filter_allTime_applyPeriodUpdate (by decide)]
  · unfold get_leaderboard
    rw [if_pos rfl, if_pos rfl]
  · unfold get_user_rank
    rw [if_pos rfl, if_pos rfl]

theorem length_filter_split {α : Type} (pq p q : α → Bool)
    (hsplit : ∀ a, pq a = (p a || q a))
    (hdisj : ∀ a, ¬(p a = true ∧ q a = true)) :
    ∀ l : List α, (l.filter pq).length = (l.filter p).length + (l.filter q).length := by
  intro l
  induction l with
  | nil => rfl
  | cons hd tl ih =>
      by_cases hp : p hd = true
      · have hq : q hd = false := by
          cases hqv : q hd
          · rfl
          · exact absurd ⟨hp, hqv⟩ (hdisj hd)
        rw [List.filter_cons_of_pos (by rw [hsplit hd, hp]; rfl),
            List.filter_cons_of_pos hp, List.filter_cons_of_neg (by rw [hq]; simp)]
        simp only [List.length_cons, ih]
        omega
      · have hp' : p hd = false := by
          cases hpv : p hd
          · rfl
          · exact absurd hpv hp
        by_cases hq : q hd = true
        · rw [List.filter_cons_of_pos (by rw [hsplit hd, hp', hq]; rfl),
              List.filter_cons_of_neg (by rw [hp']; simp),
              List.filter_cons_of_pos hq]
          simp only [List.length_cons, ih]
          omega
        · have hq' : q hd = false := by
            cases hqv : q hd
            · rfl
            · exact absurd hqv hq
          rw [List.filter_cons_of_neg (by rw [hsplit hd, hp', hq']; simp),
              List.filter_cons_of_neg (by rw [hp']; simp),
              List.filter_cons_of_neg (by rw [hq']; simp)]
          exact ih

/-- C8: for every user found in the users table with positive score,
GetUserRank(user_id, all_time) answers with rank equal to 1 plus the number
of active users with strictly greater score plus the number of active users
with equal score and strictly greater time (together with the user's own
totals and derived performance); it answers none (not found) when the user
does not exist or has score exactly 0. -/
theorem claim_C8_all_time_rank (users : List User) (st : Store) (user_id : Int) :
    (∀ u, users.find? (fun v => v.id == user_id) = some u → 0 < u.score →
      get_user_rank users st user_id .all_time none =
        some { mode := .all_time, user_id := user_id,
               rank := 1 +
                 (users.filter (fun v =>
                   v.is_active && decide (u.score < v.score))).length +
                 (users.filter (fun v =>
                   v.is_active && decide (v.score = u.score) &&
                     decide (u.time < v.time))).length,
               score := u.score, time := u.time,
               performance := if 0 < u.time then u.score / u.time else 0,
               lesson_id := none }) ∧
    (users.find? (fun v => v.id == user_id) = none →
      get_user_rank users st user_id .all_time none = none) ∧
    (∀ u, users.find? (fun v => v.id == user_id) = some u → u.score = 0 →
      get_user_rank users st user_id .all_time none = none) := by
  refine ⟨?_, ?_, ?_⟩
  · intro u hfind hpos
    unfold get_user_rank
    rw [if_pos rfl, hfind]
    dsimp only
    rw [if_neg (show ¬u.score = 0 from ne_of_gt hpos)]
    have hsplit : ∀ v : User,
        (v.is_active && decide (0 < v.score) &&
          (decide (u.score < v.score) ||
            (decide (v.score = u.score) && decide (u.time < v.time)))) =
        ((v.is_active && decide (u.score < v.score)) ||
          (v.is_active && decide (v.score = u.score) && decide (u.time < v.time))) := by
      intro v
      by_cases hgt : u.score < v.score
      · have hpos2 : (0 : ℚ) < v.score := hpos.trans hgt
        have heq : ¬(v.score = u.score) := fun h => absurd hgt (by rw [h]; exact lt_irrefl _)
        simp [hgt, hpos2, heq]
      · by_cases heq : v.score = u.score
        · have hpos2 : (0 : ℚ) < v.score := by rw [heq]; exact hpos
          by_cases htt : u.time < v.time
          · simp [hgt, heq, hpos2, htt, hpos]
          · simp [hgt, heq, hpos2, htt, hpos]
        · by_cases hps : (0 : ℚ) < v.score
          · simp [hgt, heq, hps]
          · simp [hgt, heq, hps]
    have hdisj : ∀ v : User,
        ¬((v.is_active && decide (u.score < v.score)) = true ∧
          (v.is_active && decide (v.score = u.score) && decide (u.time < v.time)) = true) := by
      intro v h
      obtain ⟨h1, h2⟩ := h
      simp only [Bool.and_eq_true, decide_eq_true_eq] at h1 h2
      exact absurd h1.2 (by rw [h2.1.2]; exact lt_irrefl _)
    have hcount := length_filter_split _ _ _ hsplit hdisj users
    have hrank : (users.filter (fun v =>
        v.is_active && decide (0 < v.score) &&
          (decide (u.score < v.score) ||
            (decide (v.score = u.score) && decide (u.time < v.time))))).length + 1 =
        1 + (users.filter (fun v =>
          v.is_active && decide (u.score < v.score))).length +
          (users.filter (fun v =>
            v.is_active && decide (v.score = u.score) &&
              decide (u.time < v.time))).length := by
      rw [hcount]
      omega
    rw [hrank]
  · intro hfind
    unfold get_user_rank
    rw [if_pos rfl, hfind]
  · intro u hfind hzero
    unfold get_user_rank
    rw [if_pos rfl, hfind]
    dsimp only
    rw [if_pos hzero]

/-- Witness for C8 at a concrete input: in c8users, user 1 has all-time rank
3 = 1 + 1 (user 2, higher score) + 1 (user 3, equal score, more time); the
inactive user 4 is not counted. -/
theorem claim_C8_all_time_rank_witness :
    get_user_rank c8users [] 1 .all_time none =
      some { mode := .all_time, user_id := 1, rank := 3, score := 5, time := 10,
             performance := 1 / 2, lesson_id := none } := by
  have h := (claim_C8_all_time_rank c8users [] 1).1
    { id := 1, full_name := none, email := "a", score := 5, time := 10, is_active := true }
    rfl (by norm_num)
  rw [h]
  norm_num [c8users]

/-- C9: a leaderboard request with mode by_lesson and no lesson_id is rejected
by the route with the 400 validation error before any store access — the
rejection is the same for every store, and as the reads are pure functions no
state is mutated; with a valid input (a lesson_id present whenever the mode
is by_lesson) the route never raises the validation error and answers with
the service result. -/
theorem claim_C9_leaderboard_validation (users : List User) (st : Store)
    (lesson_id : Option Nat) (limit : Nat) :
    (∀ st' : Store, get_leaderboard_route users st .by_lesson none limit =
      get_leaderboard_route users st' .by_lesson none limit) ∧
    get_leaderboard_route users st .by_lesson none limit =
      Except.error ("lesson_id is required when mode is by_lesson") ∧
    ∀ mode : RankingModeEnum, (mode = .by_lesson → lesson_id ≠ none) →
      get_leaderboard_route users st mode lesson_id limit =
        Except.ok (get_leaderboard users st mode lesson_id limit) := by
  refine ⟨fun st' => rfl, rfl, ?_⟩
  intro mode hmode
  unfold get_leaderboard_route
  rw [if_neg ?_]
  intro hcond
  rw [Bool.and_eq_true, decide_eq_true_eq, Option.isNone_iff_eq_none] at hcond
  exact hmode hcond.1 hcond.2

/-- Witness for C9 at a concrete input: by_lesson with no lesson_id is a
validation error regardless of the store, while a current_week request goes
through to the service. -/
theorem claim_C9_leaderboard_validation_witness :
    get_leaderboard_route [] [] .by_lesson none 10 =
      Except.error ("lesson_id is required when mode is by_lesson") ∧
    get_leaderboard_route [] [] .current_week none 10 =
      Except.ok (get_leaderboard [] [] .current_week none 10) :=
  ⟨(claim_C9_leaderboard_validation [] [] none 10).2.1,
   (claim_C9_leaderboard_validation [] [] none 10).2.2 .current_week
     (fun h => absurd h (by decide))⟩

theorem mem_userLeaderboardEntries {e : LeaderboardEntry} :
    ∀ {n : Nat} {us : List User}, e ∈ userLeaderboardEntries n us →
      ∃ v ∈ us, e.user_id = v.id := by
  intro n us
  induction us generalizing n with
  | nil => intro h; simp [userLeaderboardEntries] at h
  | cons hd tl ih =>
      intro h
      rcases List.mem_cons.mp h with h' | h'
      · exact ⟨hd, List.mem_cons_self _ _, by rw [h']⟩
      · obtain ⟨v, hv, hid⟩ := ih h'
        exact ⟨v, List.mem_cons_of_mem _ hv, hid⟩

/-- C10: the queried user's own is_active flag is never checked by
GetUserRank(all_time) — a user found in the users table with positive score
gets a rank result even when inactive — whereas GetLeaderboard(all_time)
excludes inactive users entirely: every one of its entries belongs to an
active user, so (with distinct user ids) the inactive user never appears
among them. -/
theorem claim_C10_inactive_user_rank (users : List User) (st : Store)
    (user_id : Int) (limit : Nat) (u : User)
    (hfind : users.find? (fun v => v.id == user_id) = some u)
    (hinact : u.is_active = false) (hpos : 0 < u.score)
    (hnodup : (users.map (fun v => v.id)).Nodup) :
    (get_user_rank users st user_id .all_time none).isSome = true ∧
    (∀ e ∈ get_leaderboard users st .all_time none limit,
      ∃ v ∈ users, v.id = e.user_id ∧ v.is_active = true) ∧
    ∀ e ∈ get_leaderboard users st .all_time none limit, e.user_id ≠ user_id := by
  have hactive : ∀ e ∈ get_leaderboard users st .all_time none limit,
      ∃ v ∈ users, v.id = e.user_id ∧ v.is_active = true := by
    intro e he
    unfold get_leaderboard at he
    rw [if_pos rfl] at he
    obtain ⟨v, hv, hid⟩ := mem_userLeaderboardEntries he
    have hvfil : v ∈ users.filter (fun w => w.is_active && decide (0 < w.score)) :=
      (List.mergeSort_perm _ _).mem_iff.mp (List.take_subset _ _ hv)
    have hvmem : v ∈ users := (List.mem_filter.mp hvfil).1
    have hvact : v.is_active = true := by
      have := (List.mem_filter.mp hvfil).2
      rw [Bool.and_eq_true] at this
      exact this.1
    exact ⟨v, hvmem, hid.symm, hvact⟩
  refine ⟨?_, hactive, ?_⟩
  · unfold get_user_rank
    rw [if_pos rfl, hfind]
    dsimp only
    rw [if_neg (show ¬u.score = 0 from ne_of_gt hpos)]
    rfl
  · intro e he
    obtain ⟨v, hvmem, hid, hvact⟩ := hactive e he
    intro hcontra
    have humem : u ∈ users := List.mem_of_find?_eq_some hfind
    have huid : u.id = user_id := by
      have := List.find?_some hfind
      rwa [beq_iff_eq] at this
    have hvu : v = u :=
      List.inj_on_of_nodup_map hnodup hvmem humem (by rw [hid, hcontra, huid])
    rw [hvu, hinact] at hvact
    exact Bool.false_ne_true hvact

/-- Witness for C10 at a concrete input: inactive user 2 with positive score
has a queryable all-time rank, yet owns no entry of the all-time
leaderboard. -/
theorem claim_C10_inactive_user_rank_witness :
    (get_user_rank c10users [] 2 .all_time none).isSome = true ∧
    leaderboardExcludes 2 (get_leaderboard c10users [] .all_time none 10) = true := by
  have h := claim_C10_inactive_user_rank c10users [] 2 10
    { id := 2, full_name := none, email := "x", score := 5, time := 10, is_active := false }
    rfl rfl (by norm_num) (by decide)
  refine ⟨h.1, ?_⟩
  unfold leaderboardExcludes
  rw [List.all_eq_true]
  intro e he
  rw [bne_iff_ne]
  exact h.2.2 e he
